import Mathlib

/-!
Verification of the StatArbDash analytics engine.

Shallow embedding conventions, used throughout:

* A pandas float cell is `Option ℚ`: `none` is NaN (or a missing value), `some q`
  an exact value.  The analytics combine cells only by field arithmetic, so exact
  rationals model the computations; IEEE rounding is not modelled.
* Prices enter the analytics only through their logarithms (`log_returns` is
  `np.log(p / p.shift(1))`, `spread_series` and `_compute_spread` are
  `np.log(prices[a]) - np.log(prices[b])`).  A price table is therefore embedded
  by its entrywise log-prices, with rational log values; a missing or
  non-positive price cell (where `np.log` yields nan) is `none`.  With that
  convention the log-return of a column is the elementwise difference with its
  shift, and the spread of a pair is the elementwise difference of the columns.
* Quantities of the form `q·√v` produced by `pandas.std` (standard deviations,
  Bollinger band edges, z-scores, correlations) are carried in an exact
  representation that keeps `q` and `v` as rationals instead of taking the
  square root.  `√` is strictly monotone on nonneg arguments, so definedness,
  zero-ness, comparisons and orderings of these quantities transfer exactly.
* Fallible pandas calls are embedded in `Except PyErr`.
-/

namespace StatArbDash

/-- Python exception classes raised by the code under verification. -/
inductive PyErr where
  | valueError (msg : String)
  | indexError
  | typeError (msg : String)
deriving DecidableEq, Repr

/-- One float cell of a pandas Series/DataFrame; `none` is NaN/missing. -/
abbrev Cell := Option ℚ

/-- A pandas Series of floats, as the list of its cells (positional index). -/
abbrev Col := List Cell

/-- A wide DataFrame: association list column-name → column.  The price-table
invariant (all columns share the timestamp index) makes all columns the same
length. -/
abbrev Table := List (String × Col)

/-- Column lookup, `df[name]` guarded by presence. -/
def getCol (t : Table) (name : String) : Option Col :=
  (t.find? (fun c => c.1 == name)).map (fun c => c.2)

/-- `name in df.columns`. -/
def hasCol (t : Table) (name : String) : Bool :=
  (getCol t name).isSome

/-- `df[name]` where the caller has established presence. -/
def colOf (t : Table) (name : String) : Col :=
  (getCol t name).getD []

/-- `len(df)`: number of rows (all columns share the index). -/
def nRows (t : Table) : Nat :=
  match t with
  | [] => 0
  | c :: _ => c.2.length

/-- Elementwise subtraction of two cells; NaN propagates. -/
def cellSub : Cell → Cell → Cell
  | some x, some y => some (x - y)
  | _, _ => none

/-- Elementwise difference of two aligned Series. -/
def seriesSub (xs ys : List Cell) : List Cell :=
  List.zipWith cellSub xs ys

/-- Log-returns of one (log-price) column: `np.log(p/p.shift(1))` is the
elementwise difference between the log column and its shift by one, with the
first entry NaN. -/
def colLogRet (xs : Col) : Col :=
  List.zipWith cellSub xs (none :: xs)

/-- `log_returns(prices_wide)` from `analytics/metrics.py`: same columns, each
transformed by `colLogRet`. -/
def logReturns (t : Table) : Table :=
  t.map (fun c => (c.1, colLogRet c.2))

/-- Sum of a list of rationals. -/
def qsum (l : List ℚ) : ℚ :=
  l.foldr (fun a b => a + b) 0

/-- Arithmetic mean of a list of rationals. -/
def qmean (l : List ℚ) : ℚ :=
  qsum l / (l.length : ℚ)

/-- Sample variance (`ddof=1`, as pandas `std` squares to) of a list. -/
def svar (l : List ℚ) : ℚ :=
  qsum (l.map (fun x => (x - qmean l) ^ 2)) / ((l.length : ℚ) - 1)

/-- The length-`w` window of `xs` ending at position `i`, as pandas `rolling`
sees it: defined when the window is complete (`w ≤ i+1`, fully inside the
series) and every cell in it is non-NaN (`min_periods` defaults to the window
size).  Returns the unwrapped values. -/
def windowAt (xs : List Cell) (w i : Nat) : Option (List ℚ) :=
  if w ≤ i + 1 ∧ ((xs.drop (i + 1 - w)).take w).length = w
      ∧ ((xs.drop (i + 1 - w)).take w).all (fun c => c.isSome) then
    some (((xs.drop (i + 1 - w)).take w).filterMap id)
  else
    none

/-- `series.rolling(window=w).mean()`. -/
def rollingMean (xs : List Cell) (w : Nat) : List Cell :=
  (List.range xs.length).map (fun i => (windowAt xs w i).map qmean)

/-- `series.rolling(window=w).std()`, in squared representation: the cell at
`i` holds the rolling sample variance, whose square root is the pandas value.
NaN (`none`) exactly where pandas is NaN: incomplete window, NaN in window, or
`w < 2` (`ddof=1` makes a single observation 0/0). -/
def rollingVar (xs : List Cell) (w : Nat) : List Cell :=
  (List.range xs.length).map (fun i =>
    match windowAt xs w i with
    | some l => if 2 ≤ w then some (svar l) else none
    | none => none)

/-- A z-score cell.  `val n v` stands for the real number `n / √v` with
`0 < v`; `nan` is NaN, `inf`/`ninf` the IEEE infinities that float division of
a nonzero numerator by `0.0` would produce. -/
inductive ZS where
  | nan
  | inf
  | ninf
  | val (num : ℚ) (varq : ℚ)
deriving DecidableEq, Repr

/-- The z-score `(series - rolling_mean) / rolling_std` at position `i`,
translated from `zscore` in `analytics/spread.py` (and the identical
`_compute_zscore` in `analytics/scanner.py`).  The numerator is
`series[i] - mean(window)`; dividing by the std `√(svar window)`: NaN numerator
or NaN std gives NaN, a zero std gives `0.0/0.0 = NaN` for a zero numerator and
a signed infinity otherwise, and a nonzero std gives `num / √var`. -/
def zAt (xs : List Cell) (w : Nat) (i : Nat) : ZS :=
  if 2 ≤ w then
    match xs.getD i none, windowAt xs w i with
    | some x, some l =>
      let num := x - qmean l
      let v := svar l
      if v = 0 then
        if num = 0 then ZS.nan else if 0 < num then ZS.inf else ZS.ninf
      else
        ZS.val num v
    | _, _ => ZS.nan
  else
    ZS.nan

/-- `zscore(series, window)` from `analytics/spread.py`. -/
def zscoreList (xs : List Cell) (w : Nat) : List ZS :=
  (List.range xs.length).map (zAt xs w)

/-- One Bollinger band cell: `mid + dev·√varq` (with `0 ≤ varq`), the exact
form of `rolling_mean ± k·rolling_std`.  `dev` is `+k` for the upper band and
`-k` for the lower band. -/
structure BandVal where
  mid : ℚ
  dev : ℚ
  varq : ℚ
deriving DecidableEq, Repr

/-- The band cell at position `i`: defined exactly where `mean + k·std` is
non-NaN, i.e. where the rolling std is defined (complete all-non-NaN window and
`2 ≤ w`; a NaN std also makes `k·std` NaN for `k = 0`). -/
def bandAt (xs : List Cell) (w : Nat) (dev : ℚ) (i : Nat) : Option BandVal :=
  match windowAt xs w i with
  | some l => if 2 ≤ w then some ⟨qmean l, dev, svar l⟩ else none
  | none => none

/-- Upper band series of `bollinger_bands(series, window, k)`
(`analytics/spread.py`; `_compute_bollinger_bands` in `analytics/scanner.py` is
identical). -/
def bollingerUpper (xs : List Cell) (w : Nat) (k : ℚ) : List (Option BandVal) :=
  (List.range xs.length).map (bandAt xs w k)

/-- Lower band series of `bollinger_bands(series, window, k)`. -/
def bollingerLower (xs : List Cell) (w : Nat) (k : ℚ) : List (Option BandVal) :=
  (List.range xs.length).map (bandAt xs w (-k))

/-- Decides `d > c·√v` for rationals with `0 ≤ v`, by sign analysis and
squaring.  For `0 ≤ c` both sides squared compare iff the originals do once
`0 < d`; for `c < 0` the right side is `≤ 0` and the cases split on the sign
of `d` and on `v = 0`. -/
def gtSqrt (d c v : ℚ) : Bool :=
  if 0 ≤ c then
    decide (0 < d ∧ c ^ 2 * v < d ^ 2)
  else
    decide (0 < d ∨ (0 ≤ d ∧ 0 < v) ∨ (d < 0 ∧ d ^ 2 < c ^ 2 * v))

/-- Decides `d < c·√v` for rationals with `0 ≤ v`, by symmetry. -/
def ltSqrt (d c v : ℚ) : Bool :=
  gtSqrt (-d) (-c) v

/-- Float comparison `x > band` with pandas semantics: any NaN operand
compares `False`. -/
def cellGtBand : Cell → Option BandVal → Bool
  | some q, some b => gtSqrt (q - b.mid) b.dev b.varq
  | _, _ => false

/-- Float comparison `x < band` with pandas semantics: any NaN operand
compares `False`. -/
def cellLtBand : Cell → Option BandVal → Bool
  | some q, some b => ltSqrt (q - b.mid) b.dev b.varq
  | _, _ => false

/-- `_detect_bollinger_breach(spread, upper_band, lower_band)` from
`analytics/scanner.py` (and the inline
`(spread > upper_band) | (spread < lower_band)` in `pages/3_Pair_Explorer.py`):
the elementwise boolean series over the common index. -/
def detectBollingerBreach (s : List Cell) (u low : List (Option BandVal)) : List Bool :=
  List.zipWith (fun a p => cellGtBand a p.1 || cellLtBand a p.2) s (u.zip low)

/-- `latest_boll_breach(series, upper, lower)` from `analytics/spread.py`:
`False` on any empty input; take the last element of each; `False` if any of
the three latest values is NaN (the explicit
`if pd.isna(latest_spread) or pd.isna(latest_upper) or pd.isna(latest_lower):
return False` guard); only when all three are defined, a strict excursion
outside either band. -/
def latestBollBreach (s : List Cell) (u low : List (Option BandVal)) : Bool :=
  if s.isEmpty || u.isEmpty || low.isEmpty then false
  else
    match s.getLast?, u.getLast?, low.getLast? with
    | some (some sc), some (some uc), some (some lc) =>
      gtSqrt (sc - uc.mid) uc.dev uc.varq || ltSqrt (sc - lc.mid) lc.dev lc.varq
    | _, _, _ => false

/-- Position of the most recent `True` in a boolean series: the source takes
the last label of `breach_series[breach_series].index` and converts it to a
position with `index.get_loc`.  Positions and labels coincide in the
positional embedding (the price-table index is unique, so `get_loc` cannot
fail and the `except (KeyError, TypeError)` arm is dead). -/
def lastTrueIdx (l : List Bool) : Option Nat :=
  (l.reverse.findIdx? (fun b => b)).map (fun j => l.length - 1 - j)

/-- `_compute_bars_since_breach(breach_series)` from `analytics/scanner.py`
(and the identical `compute_bars_since_breach` in `pages/3_Pair_Explorer.py`).
The float result is NaN or a nonnegative integer, embedded as `Option Nat`. -/
def barsSinceBreach (l : List Bool) : Option Nat :=
  match l.getLast? with
  | none => none
  | some true => some 0
  | some false =>
    match lastTrueIdx l with
    | none => none
    | some i => some (l.length - 1 - i)

/-- One rolling-correlation cell.  `⟨num, rad⟩` stands for the real Pearson
correlation `num / √rad` where `num` is the sample covariance and `rad` the
product of the two sample variances, `0 < rad`. -/
structure CorrVal where
  num : ℚ
  rad : ℚ
deriving DecidableEq, Repr

/-- Sample covariance (`ddof=1`) of a list of pairs. -/
def scov (xy : List (ℚ × ℚ)) : ℚ :=
  let mx := qmean (xy.map (fun p => p.1))
  let my := qmean (xy.map (fun p => p.2))
  qsum (xy.map (fun p => (p.1 - mx) * (p.2 - my))) / ((xy.length : ℚ) - 1)

/-- The rolling-correlation cell at position `i`:
`x.rolling(w).corr(y)` is NaN where the window is incomplete, contains a NaN
in either series, has `w < 2` (`ddof=1`), or has a zero variance on either
side (`0/0`); otherwise `cov / √(varx·vary)` in squared-denominator
representation. -/
def corrAt (xs ys : List Cell) (w : Nat) (i : Nat) : Option CorrVal :=
  match windowAt xs w i, windowAt ys w i with
  | some a, some b =>
    if 2 ≤ w then
      let l := a.zip b
      let va := svar a
      let vb := svar b
      if va * vb = 0 then none else some ⟨scov l, va * vb⟩
    else none
  | _, _ => none

/-- `logret[a].rolling(window=window).corr(logret[b])`: the rolling Pearson
correlation series of two aligned columns. -/
def rollingCorr (xs ys : List Cell) (w : Nat) : List (Option CorrVal) :=
  (List.range (min xs.length ys.length)).map (corrAt xs ys w)

/-- `rolling_corr(logret, a, b, window)` from `analytics/metrics.py`: raises
`ValueError` when `a` or `b` is absent from the columns, otherwise the rolling
correlation series. -/
def rollingCorrDf (logret : Table) (a b : String) (w : Nat) :
    Except PyErr (List (Option CorrVal)) :=
  if (([a, b]).filter (fun c => !(hasCol logret c))).isEmpty then
    Except.ok (rollingCorr (colOf logret a) (colOf logret b) w)
  else
    Except.error (PyErr.valueError ("Missing columns in logret: "
      ++ String.intercalate ", " (([a, b]).filter (fun c => !(hasCol logret c)))))

/-- `pair_corr_latest(logret, a, b, window)` from `analytics/metrics.py`:
`float(rolling_corr(...).iloc[-1])`.  `iloc[-1]` on an empty series raises
`IndexError`; on a non-empty series it is the last cell (possibly NaN). -/
def pairCorrLatest (logret : Table) (a b : String) (w : Nat) :
    Except PyErr (Option CorrVal) :=
  match rollingCorrDf logret a b w with
  | Except.error e => Except.error e
  | Except.ok s =>
    match s.getLast? with
    | none => Except.error PyErr.indexError
    | some v => Except.ok v

/-- The basket-return cell at row `i`: `df[tickers].mean(axis=1)` averages the
non-NaN cells of the row (pandas `skipna` default), NaN when all are NaN. -/
def rowMeanAt (logret : Table) (tickers : List String) (i : Nat) : Cell :=
  let vals := (tickers.map (fun t => (colOf logret t).getD i none)).filterMap id
  if vals.isEmpty then none else some (qsum vals / (vals.length : ℚ))

/-- `basket_return(logret, tickers)` from `analytics/metrics.py`: raises
`ValueError` when any requested ticker is absent from the columns, otherwise
the per-row equal-weight mean series `logret[tickers].mean(axis=1)`. -/
def basketReturn (logret : Table) (tickers : List String) : Except PyErr (List Cell) :=
  if (tickers.filter (fun t => !(hasCol logret t))).isEmpty then
    Except.ok ((List.range (nRows logret)).map (rowMeanAt logret tickers))
  else
    Except.error (PyErr.valueError ("Missing columns in logret: "
      ++ String.intercalate ", " (tickers.filter (fun t => !(hasCol logret t)))))

/-- The analytics fields of `config/settings.py:Settings` consumed by the
scanners. -/
structure Settings where
  zWindow : Nat
  analyticsWindow : Nat
  bollK : ℚ
  zEntry : ℚ
deriving DecidableEq, Repr

/-- `itertools.combinations(l, 2)`, in enumeration order: all position-ordered
pairs of elements of `l`. -/
def combos2 {α : Type} : List α → List (α × α)
  | [] => []
  | x :: xs => xs.map (fun y => (x, y)) ++ combos2 xs

/-- One output row of `scan_pairs_in_basket`.  `z` is the latest z-score;
`spreadVol` is the latest `spread.rolling(analytics_window).std()` cell in
squared (variance) representation. -/
structure ScanPairRow where
  a : String
  b : String
  z : ZS
  bollBreach : Bool
  barsSinceBreach : Option Nat
  corr : Option CorrVal
  spreadVol : Option ℚ
deriving DecidableEq, Repr

/-- The body of the per-pair `try` block of `scan_pairs_in_basket`
(`analytics/scanner.py` lines 231-260).  The only statement in the block that
can raise is `pair_corr_latest` (`IndexError` on a zero-row table; its
`ValueError` arm is unreachable because the caller has already checked both
columns are present and `log_returns` preserves columns). -/
def scanPairCompute (pricesLog : Table) (logret : Table) (s : Settings) (a b : String) :
    Except PyErr ScanPairRow :=
  let spread := seriesSub (colOf pricesLog a) (colOf pricesLog b)
  let zs := zscoreList spread s.zWindow
  let latestZ : ZS := (zs.getLast?).getD ZS.nan
  let upper := bollingerUpper spread s.zWindow s.bollK
  let lower := bollingerLower spread s.zWindow s.bollK
  let breach := detectBollingerBreach spread upper lower
  let latestBreach := (breach.getLast?).getD false
  let bars := barsSinceBreach breach
  match pairCorrLatest logret a b s.analyticsWindow with
  | Except.error e => Except.error e
  | Except.ok corrV =>
    let sv : Option ℚ := ((rollingVar spread s.analyticsWindow).getLast?).join
    Except.ok ⟨a, b, latestZ, latestBreach, bars, corrV, sv⟩

/-- The row-collection loop of `scan_pairs_in_basket`
(`analytics/scanner.py` lines 222-262): pairs whose tickers are absent are
skipped, per-pair exceptions are swallowed (`except Exception: continue`),
and the surviving rows are collected in enumeration order. -/
def scanPairRows (pricesLog : Table) (basketTickers : List String) (s : Settings) :
    List ScanPairRow :=
  (combos2 basketTickers).filterMap (fun p =>
    if hasCol pricesLog p.1 && hasCol pricesLog p.2 then
      match scanPairCompute pricesLog (logReturns pricesLog) s p.1 p.2 with
      | Except.ok r => some r
      | Except.error _ => none
    else none)

/-- `scan_pairs_in_basket(prices_wide, basket_tickers, settings)` from
`analytics/scanner.py`.  When the collected row list is empty the resulting
`DataFrame` has no `"z"` column and is returned as is.  When it is non-empty
the final
`df.sort_values("abs_z", ascending=False, na_last=True)` runs; `na_last` is
not a parameter of `pandas.DataFrame.sort_values` (the parameter is
`na_position`), so that call raises
`TypeError: sort_values() got an unexpected keyword argument na_last`
before anything is returned. -/
def scanPairsInBasket (pricesLog : Table) (basketTickers : List String) (s : Settings) :
    Except PyErr (List ScanPairRow) :=
  if (scanPairRows pricesLog basketTickers s).isEmpty then
    Except.ok []
  else
    Except.error (PyErr.typeError "sort_values() got an unexpected keyword argument na_last")

/-- One row of the Pair Explorer page table (`pages/3_Pair_Explorer.py`),
which extends the scanner row with the opportunity flag. -/
structure ExpRow where
  a : String
  b : String
  z : ZS
  bollBreach : Bool
  barsSinceBreach : Option Nat
  corr : Option CorrVal
  spreadVol : Option ℚ
  opportunity : Bool
deriving DecidableEq, Repr

/-- Sort key of a z-score cell for the `abs_z` sort: `none` for NaN (pandas
`na_position` handling), otherwise the squared magnitude `|z|² = num²/varq`
(`⊤` for the infinities).  Squaring is injective and monotone on `|z|`, so the
induced order is exactly the order on `|z|`. -/
def zKey : ZS → Option (WithTop ℚ)
  | ZS.nan => none
  | ZS.inf => some ⊤
  | ZS.ninf => some ⊤
  | ZS.val n v => some (some (n ^ 2 / v))

/-- Key of a row for the default sort, with a dummy value on NaN rows (they
are segregated before sorting). -/
def zKeyD (r : ExpRow) : WithTop ℚ :=
  (zKey r.z).getD ⊤

/-- Row comparison for the default sort: `r` may precede `q` iff `r`'s
absolute z-score is at least `q`'s. -/
def zGe (r q : ExpRow) : Prop :=
  zKeyD q ≤ zKeyD r

instance : DecidableRel zGe := fun r q => inferInstanceAs (Decidable (zKeyD q ≤ zKeyD r))

instance : IsTotal ExpRow zGe := ⟨fun r q => le_total (zKeyD q) (zKeyD r)⟩

instance : IsTrans ExpRow zGe := ⟨fun _ _ _ h1 h2 => le_trans h2 h1⟩

/-- The default `"|z| (desc)"` sort of the Pair Explorer table
(`pages/3_Pair_Explorer.py` lines 208-211):
`df_view.sort_values("abs_z", ascending=False, na_position="last")` orders the
rows with a defined `abs_z` by descending key and places the NaN rows after
all of them. -/
def sortAbsZDesc (rows : List ExpRow) : List ExpRow :=
  (rows.filter (fun r => (zKey r.z).isSome)).insertionSort zGe
    ++ rows.filter (fun r => !(zKey r.z).isSome)

/-- Python `str.strip()` on a character list: drop whitespace from both
ends. -/
def pyStrip (l : List Char) : List Char :=
  ((l.dropWhile Char.isWhitespace).reverse.dropWhile Char.isWhitespace).reverse

/-- Python `str.endswith(suf)` on character lists. -/
def listEndsWith (l suf : List Char) : Bool :=
  l.reverse.take suf.length == suf.reverse

/-- `to_ccxt_symbol(raw)` from `data/ccxt_data.py` (the `None` arm is ruled
out by the `list[str]` argument type of `normalize_symbols`), computed on the
character list of the string.  `str.upper()` is `Char.toUpper` per character
(the symbols handled are ASCII). -/
def toCcxtSymbol (raw : String) : String :=
  let s := (pyStrip raw.toList).map Char.toUpper
  if s.contains '/' then String.mk s
  else if listEndsWith s "BTC".toList && decide (3 < s.length) then
    String.mk (s.take (s.length - 3) ++ "/BTC".toList)
  else if listEndsWith s "USDT".toList then
    String.mk (s.take (s.length - 4) ++ "/USDT:USDT".toList)
  else if listEndsWith s "USD".toList then
    String.mk (s.take (s.length - 3) ++ "/USDT:USDT".toList)
  else String.mk s

/-- `normalize_symbols(symbols)` from `data/ccxt_data.py`. -/
def normalizeSymbols (symbols : List String) : List String :=
  symbols.map toCcxtSymbol

/-- Python string `≤`: lexicographic on the code points, i.e. the order of the
character lists (which is exactly the order of `String`'s `LinearOrder`, by
`String.le_iff_toList_le`). -/
def pyStrLe (a b : String) : Prop :=
  a.toList ≤ b.toList

instance : DecidableRel pyStrLe := fun _ _ => inferInstanceAs (Decidable (_ ≤ _))

instance : IsTotal String pyStrLe := ⟨fun a b => le_total a.toList b.toList⟩

instance : IsTrans String pyStrLe := ⟨fun _ _ _ h1 h2 => le_trans h1 h2⟩

/-- Python `sorted` on strings: stable ascending sort under the lexical
order. -/
def pySorted (l : List String) : List String :=
  l.insertionSort pyStrLe

/-- The pair enumeration of the Pair Explorer page
(`pages/3_Pair_Explorer.py` lines 123-125, identically
`pages/2_Basket_Explorer.py` line 90 and `pages/4_Pair_Deep_Dive.py` line 54):
`itertools.combinations(sorted(valid_tickers), 2)`. -/
def explorerPairs (validList : List String) : List (String × String) :=
  combos2 (pySorted validList)

/-- The valid tickers of a basket: normalized members that exist as columns
(`analytics/scanner.py` lines 125-128). -/
def validTickers (t : Table) (raws : List String) : List String :=
  (normalizeSymbols raws).filter (fun x => hasCol t x)

/-- `pandas.Series.std()` over a whole series (`skipna`, `ddof=1`), in squared
(variance) representation: NaN when fewer than 2 non-NaN observations. -/
def seriesVarQ (xs : List Cell) : Option ℚ :=
  let vals := xs.filterMap id
  if 2 ≤ vals.length then some (svar vals) else none

/-- The `basket_vol_value` computation of `scan_baskets`
(`analytics/scanner.py` lines 144-154), in squared representation; the
`except Exception` arm yields NaN (it is unreachable here because the valid
tickers are all columns). -/
def basketVolValue (logret : Table) (valid : List String) (aw : Nat) : Option ℚ :=
  match basketReturn logret valid with
  | Except.error _ => none
  | Except.ok br =>
    if aw ≤ br.length then
      let recent := br.drop (br.length - aw)
      if 1 < recent.length then seriesVarQ recent else none
    else if 1 < br.length then seriesVarQ br
    else none

/-- Decides `|z| ≥ e` for a z-score cell, pandas float semantics: `False` on
NaN (the source guards with `pd.isna`), `True` on the infinities, and squared
comparison on finite values (for `e ≤ 0` trivially true). -/
def absZGe (z : ZS) (e : ℚ) : Bool :=
  match z with
  | ZS.nan => false
  | ZS.inf => true
  | ZS.ninf => true
  | ZS.val n v => decide (e ≤ 0 ∨ e ^ 2 * v ≤ n ^ 2)

/-- The per-pair body of the opportunity count of `scan_baskets`
(`analytics/scanner.py` lines 164-177): a pair counts iff the latest z-score
is non-NaN with `abs(latest_z) >= z_entry` and `latest_boll_breach` holds.
Nothing in this body can raise, so the `except Exception: continue` arm is
dead. -/
def oppForPair (pricesLog : Table) (s : Settings) (a b : String) : Bool :=
  let spread := seriesSub (colOf pricesLog a) (colOf pricesLog b)
  let zs := zscoreList spread s.zWindow
  let upper := bollingerUpper spread s.zWindow s.bollK
  let lower := bollingerLower spread s.zWindow s.bollK
  let latestBreach := latestBollBreach spread upper lower
  match zs.getLast? with
  | some z => absZGe z s.zEntry && latestBreach
  | none => false

/-- `pandas.Series.nlargest(3)` on an association list of scores: the three
largest by score, ties resolved toward earlier position (`keep="first"`),
via a stable insertion sort by descending score. -/
def nlargest3 (l : List (String × ℚ)) : List (String × ℚ) :=
  (l.insertionSort (fun p q => q.2 ≤ p.2)).take 3

/-- The `top_movers` computation of `scan_baskets` (`analytics/scanner.py`
lines 180-192): absolute log returns of the valid tickers over the last
`lookback_bars` rows (or all rows if fewer), summed per ticker with pandas
`skipna`, top three tickers joined with a comma; empty when there are no
rows.  Nothing here raises, so the `except Exception` arm is dead. -/
def topMoversStr (logret : Table) (valid : List String) (lookback : Nat) : String :=
  let n := nRows logret
  let keep := if lookback ≤ n then lookback else n
  if keep = 0 then ""
  else
    let absSum := valid.map (fun t =>
      (t, qsum ((((colOf logret t).drop (n - keep)).filterMap id).map (fun q => |q|))))
    String.intercalate ", " ((nlargest3 absSum).map (fun p => p.1))

/-- One output row of `scan_baskets`.  `basketVol` is in squared (variance)
representation: the pandas cell is its square root, so definedness, equality
and order transfer. -/
structure BasketRow where
  basket : String
  nTickers : Nat
  basketVol : Option ℚ
  oppCount : Nat
  topMovers : String
deriving DecidableEq, Repr

/-- The row `scan_baskets` emits for one configured basket
(`analytics/scanner.py` lines 123-200): the `n_tickers < 2` edge row with NaN
volatility, zero opportunities and empty top-movers, or the computed row. -/
def scanBasketRow (pricesLog : Table) (logret : Table) (s : Settings) (lookback : Nat)
    (name : String) (raws : List String) : BasketRow :=
  if (validTickers pricesLog raws).length < 2 then
    ⟨name, (validTickers pricesLog raws).length, none, 0, ""⟩
  else
    ⟨name, (validTickers pricesLog raws).length,
      basketVolValue logret (validTickers pricesLog raws) s.analyticsWindow,
      (if s.zWindow ≤ nRows pricesLog then
        (combos2 (validTickers pricesLog raws)).countP
          (fun p => oppForPair pricesLog s p.1 p.2)
      else 0),
      topMoversStr logret (validTickers pricesLog raws) lookback⟩

/-- Row comparison for the basket-summary sort: volatility descending, ties
by opportunity count descending (on the squared representation, whose order
is the order of the stds). -/
def bkGe (r q : BasketRow) : Prop :=
  (r.basketVol).getD 0 > (q.basketVol).getD 0 ∨
    ((r.basketVol).getD 0 = (q.basketVol).getD 0 ∧ q.oppCount ≤ r.oppCount)

instance : DecidableRel bkGe := fun _ _ =>
  inferInstanceAs (Decidable (_ ∨ _))

instance : IsTotal BasketRow bkGe :=
  ⟨fun r q => by
    unfold bkGe
    rcases lt_trichotomy ((r.basketVol).getD 0) ((q.basketVol).getD 0) with h | h | h
    · exact Or.inr (Or.inl h)
    · rcases le_total q.oppCount r.oppCount with ho | ho
      · exact Or.inl (Or.inr ⟨h, ho⟩)
      · exact Or.inr (Or.inr ⟨h.symm, ho⟩)
    · exact Or.inl (Or.inl h)⟩

instance : IsTrans BasketRow bkGe :=
  ⟨fun r q p h1 h2 => by
    unfold bkGe at h1 h2 ⊢
    rcases h1 with h1 | ⟨h1e, h1o⟩
    · rcases h2 with h2 | ⟨h2e, h2o⟩
      · exact Or.inl (lt_trans h2 h1)
      · exact Or.inl (h2e ▸ h1)
    · rcases h2 with h2 | ⟨h2e, h2o⟩
      · exact Or.inl (h1e ▸ h2)
      · exact Or.inr ⟨h1e.trans h2e, le_trans h2o h1o⟩⟩

/-- Row comparison among the NaN-volatility rows: opportunity count
descending (the secondary lexsort key, the primary being tied at NaN). -/
def oppGe (r q : BasketRow) : Prop :=
  q.oppCount ≤ r.oppCount

instance : DecidableRel oppGe := fun _ _ => inferInstanceAs (Decidable (_ ≤ _))

instance : IsTotal BasketRow oppGe := ⟨fun r q => le_total q.oppCount r.oppCount⟩

instance : IsTrans BasketRow oppGe := ⟨fun _ _ _ h1 h2 => le_trans h2 h1⟩

/-- The final sort of `scan_baskets` (`analytics/scanner.py` line 205):
`sort_values(["basket_vol", "opp_count"], ascending=[False, False],
na_position="last")`.  Pandas lexsorts: rows with a defined volatility come
first, ordered by volatility descending then opportunity count descending;
rows with NaN volatility come after all of them, ordered among themselves by
the secondary key. -/
def sortBasketRows (rows : List BasketRow) : List BasketRow :=
  (rows.filter (fun r => (r.basketVol).isSome)).insertionSort bkGe
    ++ (rows.filter (fun r => !(r.basketVol).isSome)).insertionSort oppGe

/-- `scan_baskets(prices_wide, baskets, settings, lookback_bars)` from
`analytics/scanner.py`.  The baskets dict is an insertion-ordered association
list.  No path raises: the per-basket edge case emits a fixed row, and the
remaining computations are total (their `except` arms are dead). -/
def scanBaskets (pricesLog : Table) (baskets : List (String × List String))
    (s : Settings) (lookback : Nat) : List BasketRow :=
  let logret := logReturns pricesLog
  sortBasketRows (baskets.map (fun bk => scanBasketRow pricesLog logret s lookback bk.1 bk.2))

deriving instance DecidableEq for Except

/-! Concrete inputs used by counterexamples and witnesses. -/

/-- The default analytics parameters (`config/settings.py`): `z_window=120`,
`analytics_window=240`, `boll_k=2.0`, `z_entry=2.0`. -/
def defaultSettings : Settings := ⟨120, 240, 2, 2⟩

/-- A one-row price table with two columns (log-prices `0` and `1`). -/
def oneRowTable : Table := [("A", [some 0]), ("B", [some 1])]

/-- A zero-row table that still has two columns, as
`pandas.DataFrame(columns=["A", "B"])` would. -/
def zeroRowTable : Table := [("A", []), ("B", [])]

/-! Helper lemmas. -/

/-- Head-form of `findIdx?`: test the head, else recurse with the indices
shifted. -/
theorem findIdx?_cons_zero {α : Type} (p : α → Bool) (x : α) (l : List α) :
    (x :: l).findIdx? p = if p x then some 0 else (l.findIdx? p).map (fun j => j + 1) := by
  rw [List.findIdx?_cons]
  split
  · rfl
  · exact List.findIdx?_succ

/-- `findIdx?` skips a prefix on which the predicate fails. -/
theorem findIdx?_append_false {α : Type} (p : α → Bool) :
    ∀ (a b : List α), (∀ x ∈ a, p x = false) →
      (a ++ b).findIdx? p = (b.findIdx? p).map (fun j => a.length + j)
  | [], b, _ => by
    simp only [List.nil_append, List.length_nil, Nat.zero_add]
    cases b.findIdx? p <;> rfl
  | x :: a, b, h => by
    have hx : p x = false := h x (List.mem_cons_self x a)
    rw [List.cons_append, findIdx?_cons_zero, hx]
    simp only [Bool.false_eq_true, if_false]
    rw [findIdx?_append_false p a b (fun y hy => h y (List.mem_cons_of_mem x hy))]
    cases b.findIdx? p with
    | none => rfl
    | some j =>
      simp only [Option.map_some, List.length_cons]
      show some (a.length + j + 1) = some (a.length + 1 + j)
      exact congrArg some (by omega)

/-- The series with no breach at all makes `barsSinceBreach` undefined. -/
theorem barsSinceBreach_of_all_false (l : List Bool) (h : ∀ x ∈ l, x = false) :
    barsSinceBreach l = none := by
  unfold barsSinceBreach
  cases hl : l.getLast? with
  | none => rfl
  | some b =>
    have hb : b = false := h b (List.mem_of_mem_getLast? (hl ▸ rfl))
    subst hb
    have hidx : lastTrueIdx l = none := by
      unfold lastTrueIdx
      rw [List.findIdx?_eq_none_iff.mpr (fun x hx => h x (List.mem_reverse.mp hx))]
      rfl
    rw [hidx]

/-- The general position case of `barsSinceBreach`: if the most recent `True`
sits `l₂.length` bars before the end, that bar count is returned. -/
theorem barsSinceBreach_append (l₁ l₂ : List Bool) (h : ∀ x ∈ l₂, x = false) :
    barsSinceBreach (l₁ ++ true :: l₂) = some l₂.length := by
  cases l₂ with
  | nil =>
    unfold barsSinceBreach
    rw [List.getLast?_concat]
    rfl
  | cons y ys =>
    have hlast : (l₁ ++ true :: y :: ys).getLast? = some false := by
      rw [List.getLast?_append]
      have h2 : (true :: y :: ys).getLast? = some ((y :: ys).getLast (by simp)) := by
        rw [List.getLast?_cons_cons, List.getLast?_eq_getLast]
      rw [h2, h _ (List.getLast_mem _)]
      rfl
    have hrev : (l₁ ++ true :: y :: ys).reverse = (y :: ys).reverse ++ (true :: l₁.reverse) := by
      rw [List.reverse_append, List.reverse_cons, List.append_assoc]
      rfl
    have hfind : ((l₁ ++ true :: y :: ys).reverse.findIdx? (fun b => b)) = some (y :: ys).length := by
      rw [hrev, findIdx?_append_false _ _ _ (fun x hx => h x (List.mem_reverse.mp hx)),
        findIdx?_cons_zero]
      simp
    have hidx : lastTrueIdx (l₁ ++ true :: y :: ys) =
        some ((l₁ ++ true :: y :: ys).length - 1 - (y :: ys).length) := by
      unfold lastTrueIdx
      rw [hfind]
      rfl
    have hlen : (l₁ ++ true :: y :: ys).length = l₁.length + 1 + (y :: ys).length := by
      simp
      omega
    unfold barsSinceBreach
    rw [hlast, hidx]
    exact congrArg some (by omega)

/-- C2.  `bars_since_breach` returns `0` when the last bar breaches, the bar
distance from the most recent breach to the end when one exists further back,
and NaN (`none`) when the series is empty or contains no breach; in
particular `[F, F, T, F, F] ↦ 2` and `[F, F, F] ↦ NaN`. -/
theorem barsSinceBreach_spec :
    barsSinceBreach [] = none
    ∧ (∀ l : List Bool, l.getLast? = some true → barsSinceBreach l = some 0)
    ∧ (∀ l : List Bool, (∀ x ∈ l, x = false) → barsSinceBreach l = none)
    ∧ (∀ l₁ l₂ : List Bool, (∀ x ∈ l₂, x = false) →
        barsSinceBreach (l₁ ++ true :: l₂) = some l₂.length)
    ∧ barsSinceBreach [false, false, true, false, false] = some 2
    ∧ barsSinceBreach [false, false, false] = none := by
  refine ⟨rfl, ?_, barsSinceBreach_of_all_false, barsSinceBreach_append, by decide, by decide⟩
  intro l hl
  unfold barsSinceBreach
  rw [hl]

/-- Witness for C2: the general clauses applied at the spec's example inputs. -/
theorem barsSinceBreach_spec_witness :
    barsSinceBreach ([false, false] ++ true :: [false, false]) = some 2
    ∧ barsSinceBreach [false, true] = some 0 := by
  exact ⟨barsSinceBreach_spec.2.2.2.1 [false, false] [false, false] (by decide),
    barsSinceBreach_spec.2.1 [false, true] rfl⟩

/-- The number of pairs `combinations(l, 2)` yields is `choose (length l) 2`. -/
theorem combos2_length {α : Type} : ∀ l : List α, (combos2 l).length = l.length.choose 2
  | [] => rfl
  | x :: xs => by
    simp only [combos2, List.length_append, List.length_map, List.length_cons,
      Nat.choose_succ_succ, Nat.choose_one_right, combos2_length xs]

/-- Both components of a produced pair come from the input list. -/
theorem mem_combos2 {α : Type} {p : α × α} :
    ∀ {l : List α}, p ∈ combos2 l → p.1 ∈ l ∧ p.2 ∈ l := by
  intro l
  induction l with
  | nil => intro hp; simp [combos2] at hp
  | cons x xs ih =>
    intro hp
    rcases List.mem_append.mp hp with hmap | hrec
    · rcases List.mem_map.mp hmap with ⟨y, hy, hxy⟩
      subst hxy
      exact ⟨List.mem_cons_self x xs, List.mem_cons_of_mem x hy⟩
    · rcases ih hrec with ⟨h1, h2⟩
      exact ⟨List.mem_cons_of_mem x h1, List.mem_cons_of_mem x h2⟩

/-- Every produced pair is in the relation under which the list is pairwise
ordered. -/
theorem combos2_rel {α : Type} {R : α → α → Prop} :
    ∀ {l : List α}, l.Pairwise R → ∀ p ∈ combos2 l, R p.1 p.2 := by
  intro l
  induction l with
  | nil => intro _ p hp; simp [combos2] at hp
  | cons x xs ih =>
    intro hpw p hp
    rcases List.pairwise_cons.mp hpw with ⟨hx, hxs⟩
    rcases List.mem_append.mp hp with hmap | hrec
    · rcases List.mem_map.mp hmap with ⟨y, hy, hxy⟩
      subst hxy
      exact hx y hy
    · exact ih hxs p hrec

/-- Counting a pair among those with a fixed first component. -/
theorem count_pair_map {α : Type} [DecidableEq α] (x a b : α) :
    ∀ xs : List α,
      (xs.map (fun y => (x, y))).count (a, b) = if a = x then xs.count b else 0
  | [] => by simp
  | y :: ys => by
    by_cases hax : a = x
    · subst hax
      simp [List.count_cons, count_pair_map a a b ys]
    · have hxa : ¬ x = a := fun h => hax h.symm
      simp [List.count_cons, count_pair_map x a b ys, hax, hxa]

/-- Each lexically increasing pair of members of a strictly sorted list is
produced exactly once. -/
theorem combos2_count {α : Type} [LinearOrder α] [DecidableEq α] :
    ∀ (l : List α), l.Sorted (· < ·) →
      ∀ a b : α, a ∈ l → b ∈ l → a < b → (combos2 l).count (a, b) = 1 := by
  intro l
  induction l with
  | nil => intro _ a b ha; simp at ha
  | cons x xs ih =>
    intro hs a b ha hb hab
    rcases List.pairwise_cons.mp hs with ⟨hx, hxs⟩
    have hxnotmem : x ∉ xs := fun hmem => lt_irrefl x (hx x hmem)
    rw [show combos2 (x :: xs) = xs.map (fun y => (x, y)) ++ combos2 xs from rfl,
      List.count_append, count_pair_map]
    by_cases hax : a = x
    · subst hax
      have hbx : b ≠ a := fun hbe => lt_irrefl a (hbe ▸ hab)
      have hbxs : b ∈ xs := by
        rcases List.mem_cons.mp hb with hbe | hbxs
        · exact absurd hbe hbx
        · exact hbxs
      have hcount : xs.count b = 1 :=
        List.count_eq_one_of_mem (hxs.nodup) hbxs
      have hzero : (combos2 xs).count (a, b) = 0 := by
        rw [List.count_eq_zero]
        intro hmem
        exact hxnotmem (mem_combos2 hmem).1
      rw [if_pos rfl, hcount, hzero]
    · have haxs : a ∈ xs := by
        rcases List.mem_cons.mp ha with hae | haxs
        · exact absurd hae hax
        · exact haxs
      have hbxs : b ∈ xs := by
        rcases List.mem_cons.mp hb with hbe | hbxs
        · exfalso
          have hxa : x < a := hx a haxs
          rw [hbe] at hab
          exact lt_irrefl x (lt_trans hxa hab)
        · exact hbxs
      rw [if_neg hax, ih hxs a b haxs hbxs hab]

/-- C3.  For a basket of `n` distinct valid tickers, the Pair Scanner
enumeration (`combinations(sorted(valid_tickers), 2)`) produces exactly
`n*(n-1)/2` pairs, every produced pair `(a, b)` has `a` lexically less than
`b`, and each unordered pair of distinct tickers appears exactly once (as its
lexically increasing arrangement; the count of every `(a, b)` with `a < b`
both members is `1`, and pairs with `a ≥ b` never occur by the second
clause). -/
theorem pairEnumeration_spec (valid : List String) (hnd : valid.Nodup)
    (_hn : 2 ≤ valid.length) :
    (explorerPairs valid).length = valid.length * (valid.length - 1) / 2
    ∧ (∀ p ∈ explorerPairs valid, p.1 < p.2)
    ∧ (∀ a b : String, a ∈ valid → b ∈ valid → a < b →
        (explorerPairs valid).count (a, b) = 1) := by
  have hperm : (pySorted valid).Perm valid := List.perm_insertionSort pyStrLe valid
  have hsortedLe : (pySorted valid).Sorted (fun a b => a ≤ b) :=
    (List.sorted_insertionSort pyStrLe valid).imp
      (fun hab => String.le_iff_toList_le.mpr hab)
  have hnd2 : (pySorted valid).Nodup := hperm.symm.nodup hnd
  have hsortedLt : (pySorted valid).Sorted (fun a b => a < b) :=
    hsortedLe.lt_of_le hnd2
  refine ⟨?_, ?_, ?_⟩
  · rw [explorerPairs, combos2_length, hperm.length_eq, Nat.choose_two_right]
  · intro p hp
    exact combos2_rel hsortedLt p hp
  · intro a b ha hb hab
    exact combos2_count _ hsortedLt a b (hperm.mem_iff.mpr ha) (hperm.mem_iff.mpr hb) hab

/-- Witness for C3 at a concrete three-ticker basket. -/
theorem pairEnumeration_spec_witness :
    explorerPairs ["ETH", "BTC", "ARB"] = [("ARB", "BTC"), ("ARB", "ETH"), ("BTC", "ETH")]
    ∧ (explorerPairs ["ETH", "BTC", "ARB"]).length = 3
    ∧ (∀ p ∈ explorerPairs ["ETH", "BTC", "ARB"], p.1 < p.2) := by
  have h := pairEnumeration_spec ["ETH", "BTC", "ARB"] (by decide) (by decide)
  refine ⟨by decide, ?_, h.2.1⟩
  rw [h.1]
  decide

/-- Sums of nonnegative rationals are nonnegative. -/
theorem qsum_nonneg : ∀ {l : List ℚ}, (∀ x ∈ l, 0 ≤ x) → 0 ≤ qsum l
  | [], _ => le_refl 0
  | x :: t, h => by
    have hx := h x (List.mem_cons_self x t)
    have ht := qsum_nonneg (fun y hy => h y (List.mem_cons_of_mem x hy))
    show 0 ≤ x + qsum t
    exact add_nonneg hx ht

/-- A zero sum of nonnegative rationals has all terms zero. -/
theorem qsum_eq_zero : ∀ {l : List ℚ}, (∀ x ∈ l, 0 ≤ x) → qsum l = 0 → ∀ x ∈ l, x = 0
  | [], _, _, x, hx => absurd hx (List.not_mem_nil x)
  | y :: t, h, hz, x, hx => by
    have hy := h y (List.mem_cons_self y t)
    have ht : ∀ z ∈ t, 0 ≤ z := fun z hzm => h z (List.mem_cons_of_mem y hzm)
    have hsum : qsum (y :: t) = y + qsum t := rfl
    rw [hsum] at hz
    have htn : 0 ≤ qsum t := qsum_nonneg ht
    have hy0 : y = 0 := by linarith
    have htz : qsum t = 0 := by linarith
    rcases List.mem_cons.mp hx with hxy | hxt
    · rw [hxy, hy0]
    · exact qsum_eq_zero ht htz x hxt

/-- A window with zero sample variance is constant at its mean. -/
theorem svar_eq_zero_mem {l : List ℚ} (h2 : 2 ≤ l.length) (hv : svar l = 0) :
    ∀ x ∈ l, x = qmean l := by
  have hden : ((l.length : ℚ) - 1) ≠ 0 := by
    have hc : (2 : ℚ) ≤ (l.length : ℚ) := by exact_mod_cast h2
    linarith
  have hnum : qsum (l.map (fun x => (x - qmean l) ^ 2)) = 0 := by
    unfold svar at hv
    rcases div_eq_zero_iff.mp hv with h | h
    · exact h
    · exact absurd h hden
  intro x hx
  have hsq : (x - qmean l) ^ 2 = 0 :=
    qsum_eq_zero
      (fun y hy => by
        rcases List.mem_map.mp hy with ⟨z, _, hzz⟩
        rw [← hzz]
        exact sq_nonneg _)
      hnum _ (List.mem_map.mpr ⟨x, hx, rfl⟩)
  have hx0 : x - qmean l = 0 := by
    have := pow_eq_zero_iff (two_ne_zero) |>.mp hsq
    exact this
  exact sub_eq_zero.mp hx0

/-- Unpacking a defined rolling window. -/
theorem windowAt_some {xs : List Cell} {w i : Nat} {l : List ℚ}
    (h : windowAt xs w i = some l) :
    w ≤ i + 1 ∧ ((xs.drop (i + 1 - w)).take w).length = w
      ∧ ((xs.drop (i + 1 - w)).take w).all (fun c => c.isSome) = true
      ∧ l = ((xs.drop (i + 1 - w)).take w).filterMap id := by
  unfold windowAt at h
  split at h
  · rename_i hc
    exact ⟨hc.1, hc.2.1, hc.2.2, (Option.some_inj.mp h).symm⟩
  · exact absurd h (by simp)

/-- De-optioning an all-`some` list keeps the length. -/
theorem length_filterMap_id_of_all :
    ∀ {l : List Cell}, l.all (fun c => c.isSome) = true → (l.filterMap id).length = l.length
  | [], _ => rfl
  | c :: t, h => by
    rcases List.all_eq_true.mp h c (List.mem_cons_self c t) with hc
    rcases Option.isSome_iff_exists.mp hc with ⟨q, hq⟩
    subst hq
    have ht : t.all (fun c => c.isSome) = true :=
      List.all_eq_true.mpr (fun x hx => List.all_eq_true.mp h x (List.mem_cons_of_mem _ hx))
    show (List.filterMap id (some q :: t)).length = t.length + 1
    rw [show List.filterMap id (some q :: t) = q :: List.filterMap id t from
        List.filterMap_cons_some rfl,
      List.length_cons, length_filterMap_id_of_all ht]

/-- A defined rolling window at position `i` has full length and contains the
series value at `i` (its last entry). -/
theorem windowAt_getD {xs : List Cell} {w i : Nat} {l : List ℚ}
    (h : windowAt xs w i = some l) (hw : 1 ≤ w) :
    l.length = w ∧ ∃ q : ℚ, xs.getD i none = some q ∧ q ∈ l := by
  obtain ⟨hwi, hlen, hall, hl⟩ := windowAt_some h
  have hlenl : l.length = w := by rw [hl, length_filterMap_id_of_all hall, hlen]
  have hwlt : w - 1 < ((xs.drop (i + 1 - w)).take w).length := by omega
  have hcmem : ((xs.drop (i + 1 - w)).take w).get ⟨w - 1, hwlt⟩ ∈ (xs.drop (i + 1 - w)).take w :=
    List.get_mem _ _ hwlt
  have hcsome := List.all_eq_true.mp hall _ hcmem
  rcases Option.isSome_iff_exists.mp hcsome with ⟨q, hq⟩
  have hqmem : q ∈ l := by
    rw [hl]
    exact List.mem_filterMap.mpr ⟨_, hcmem, by rw [hq]; rfl⟩
  have hslice : ((xs.drop (i + 1 - w)).take w)[w - 1]? =
      some (((xs.drop (i + 1 - w)).take w).get ⟨w - 1, hwlt⟩) := by
    rw [List.getElem?_eq_getElem hwlt]
    rfl
  have hxs : xs[i]? = some (some q) := by
    have h1 : ((xs.drop (i + 1 - w)).take w)[w - 1]? = (xs.drop (i + 1 - w))[w - 1]? :=
      List.getElem?_take_of_lt (by omega)
    have h2 : (xs.drop (i + 1 - w))[w - 1]? = xs[(i + 1 - w) + (w - 1)]? :=
      List.getElem?_drop _ _ _
    have h3 : (i + 1 - w) + (w - 1) = i := by omega
    rw [← h3, ← h2, ← h1, hslice, hq]
  refine ⟨hlenl, q, ?_, hqmem⟩
  rw [List.getD_eq_getElem?_getD, hxs]
  rfl

/-- Positional access into a `range`-mapped list. -/
theorem getD_range_map {α : Type} (f : Nat → α) (n i : Nat) (d : α) (h : i < n) :
    ((List.range n).map f).getD i d = f i := by
  rw [List.getD_eq_getElem?_getD, List.getElem?_map, List.getElem?_range h]
  rfl

/-- The z-score series has the length of its input. -/
theorem zscoreList_length (xs : List Cell) (w : Nat) :
    (zscoreList xs w).length = xs.length := by
  simp [zscoreList]

/-- Positional access into the z-score series. -/
theorem zscoreList_get (xs : List Cell) (w : Nat) (i : Nat)
    (h : i < (zscoreList xs w).length) :
    (zscoreList xs w).get ⟨i, h⟩ = zAt xs w i := by
  unfold zscoreList at h ⊢
  rw [List.get_eq_getElem, List.getElem_map, List.getElem_range]

/-- Positional access into the rolling variance series. -/
theorem rollingVar_getD (xs : List Cell) (w i : Nat) (h : i < xs.length) :
    (rollingVar xs w).getD i none =
      (match windowAt xs w i with
      | some l => if 2 ≤ w then some (svar l) else none
      | none => none) := by
  unfold rollingVar
  exact getD_range_map _ _ _ _ h

/-- C5.  For every input series and window `w ≥ 2`, the z-score is NaN at each
warm-up position (the first `w-1`), NaN at every position whose rolling
standard deviation is zero (`rollingVar` cell `some 0`; the pandas std is its
square root), and never an infinity — the zero-std division is always the NaN
`0.0/0.0`, never `x/0.0` with `x ≠ 0`, because a window with zero variance is
constant at its mean. -/
theorem zscore_spec (xs : List Cell) (w : Nat) (hw : 2 ≤ w) :
    (zscoreList xs w).length = xs.length
    ∧ (∀ (i : Nat) (h : i < (zscoreList xs w).length), i + 1 < w →
        (zscoreList xs w).get ⟨i, h⟩ = ZS.nan)
    ∧ (∀ (i : Nat) (h : i < (zscoreList xs w).length),
        (rollingVar xs w).getD i none = some 0 →
        (zscoreList xs w).get ⟨i, h⟩ = ZS.nan)
    ∧ (∀ (i : Nat) (h : i < (zscoreList xs w).length),
        (zscoreList xs w).get ⟨i, h⟩ ≠ ZS.inf
        ∧ (zscoreList xs w).get ⟨i, h⟩ ≠ ZS.ninf) := by
  refine ⟨zscoreList_length xs w, ?_, ?_, ?_⟩
  · intro i h hiw
    rw [zscoreList_get]
    have hwin : windowAt xs w i = none := by
      unfold windowAt
      rw [if_neg]
      intro hc
      omega
    unfold zAt
    rw [if_pos hw, hwin]
    cases hx : xs.getD i none <;> rfl
  · intro i h hvar
    have hi : i < xs.length := by
      have hl := zscoreList_length xs w
      omega
    rw [rollingVar_getD xs w i hi] at hvar
    rcases hwin : windowAt xs w i with _ | l
    · rw [hwin] at hvar
      simp at hvar
    · rw [hwin] at hvar
      have hvar2 : (if 2 ≤ w then some (svar l) else none) = some 0 := hvar
      rw [if_pos hw] at hvar2
      have hsv : svar l = 0 := Option.some_inj.mp hvar2
      obtain ⟨hlen, q, hq, hqmem⟩ := windowAt_getD hwin (by omega)
      have hqe : q = qmean l := svar_eq_zero_mem (by omega) hsv q hqmem
      rw [zscoreList_get]
      unfold zAt
      rw [if_pos hw, hwin, hq]
      show (if svar l = 0 then
          if q - qmean l = 0 then ZS.nan else if 0 < q - qmean l then ZS.inf else ZS.ninf
        else ZS.val (q - qmean l) (svar l)) = ZS.nan
      rw [if_pos hsv, if_pos (by rw [hqe]; ring)]
  · intro i h
    rw [zscoreList_get]
    unfold zAt
    rw [if_pos hw]
    rcases hwin : windowAt xs w i with _ | l
    · cases hx : xs.getD i none <;> exact ⟨by simp, by simp⟩
    · rcases hx : xs.getD i none with _ | q
      · exact ⟨by simp, by simp⟩
      · obtain ⟨hlen, q2, hq2, hq2mem⟩ := windowAt_getD hwin (by omega)
        rw [hq2] at hx
        have hqq : q2 = q := Option.some_inj.mp hx
        subst hqq
        show ((if svar l = 0 then
            if q2 - qmean l = 0 then ZS.nan else if 0 < q2 - qmean l then ZS.inf else ZS.ninf
          else ZS.val (q2 - qmean l) (svar l)) ≠ ZS.inf)
          ∧ ((if svar l = 0 then
            if q2 - qmean l = 0 then ZS.nan else if 0 < q2 - qmean l then ZS.inf else ZS.ninf
          else ZS.val (q2 - qmean l) (svar l)) ≠ ZS.ninf)
        by_cases hsv : svar l = 0
        · have hqe : q2 = qmean l := svar_eq_zero_mem (by omega) hsv q2 hq2mem
          rw [if_pos hsv, if_pos (by rw [hqe]; ring)]
          exact ⟨by simp, by simp⟩
        · rw [if_neg hsv]
          exact ⟨by simp, by simp⟩

unseal Rat.add Rat.sub Rat.mul Rat.inv in
theorem zscore_spec_witness :
    zscoreList [some 1, some 1, some 1] 2 = [ZS.nan, ZS.nan, ZS.nan]
    ∧ (rollingVar [some 1, some 1, some 1] 2).getD 1 none = some 0
    ∧ (zscoreList [some 1, some 1, some 1] 2).get ⟨1, by decide⟩ = ZS.nan :=
  ⟨by decide, by decide,
    (zscore_spec [some 1, some 1, some 1] 2 (by decide)).2.2.1 1 (by decide) (by decide)⟩

/-- A two-column log-return table with two rows (one NaN cell). -/
def twoColTable : Table := [("A", [some 1, none]), ("B", [some 0, some 2])]

/-- C7.  `basket_return` raises `ValueError` (the `InvalidInput` failure) iff
some requested ticker is absent from the table's columns; when all are
present it returns the per-timestamp equal-weight (`skipna`) mean of the
requested columns, without raising. -/
theorem basketReturn_spec (logret : Table) (tickers : List String) :
    ((∃ msg, basketReturn logret tickers = Except.error (PyErr.valueError msg)) ↔
      ∃ t ∈ tickers, hasCol logret t = false)
    ∧ ((∀ t ∈ tickers, hasCol logret t = true) →
        basketReturn logret tickers =
          Except.ok ((List.range (nRows logret)).map (rowMeanAt logret tickers))) := by
  constructor
  · constructor
    · rintro ⟨msg, hmsg⟩
      by_cases hemp : (tickers.filter (fun t => !(hasCol logret t))).isEmpty = true
      · unfold basketReturn at hmsg
        rw [if_pos hemp] at hmsg
        exact absurd hmsg (by simp)
      · have hne : tickers.filter (fun t => !(hasCol logret t)) ≠ [] := by
          intro heq
          rw [heq] at hemp
          exact hemp rfl
        rcases List.exists_mem_of_ne_nil _ hne with ⟨t, ht⟩
        have hmem := List.mem_filter.mp ht
        exact ⟨t, hmem.1, by simpa using hmem.2⟩
    · rintro ⟨t, ht, hcol⟩
      have hne : tickers.filter (fun x => !(hasCol logret x)) ≠ [] := by
        intro heq
        have habs := List.filter_eq_nil_iff.mp heq t ht
        simp [hcol] at habs
      have hemp : (tickers.filter (fun x => !(hasCol logret x))).isEmpty = false := by
        cases hf : tickers.filter (fun x => !(hasCol logret x)) with
        | nil => exact absurd hf hne
        | cons y ys => rfl
      refine ⟨"Missing columns in logret: "
        ++ String.intercalate ", " (tickers.filter (fun x => !(hasCol logret x))), ?_⟩
      unfold basketReturn
      rw [if_neg (by rw [hemp]; exact fun hc => nomatch hc)]
  · intro hall
    have hemp : tickers.filter (fun x => !(hasCol logret x)) = [] :=
      List.filter_eq_nil_iff.mpr (fun t ht => by simp [hall t ht])
    unfold basketReturn
    rw [hemp]
    rfl

unseal Rat.add Rat.sub Rat.mul Rat.inv in
/-- Witness for C7: two present tickers give the row means without raising;
an absent ticker raises `ValueError`. -/
theorem basketReturn_spec_witness :
    (∀ t ∈ (["A", "B"] : List String), hasCol twoColTable t = true)
    ∧ basketReturn twoColTable ["A", "B"] = Except.ok [some (1 / 2), some 2]
    ∧ (∃ msg, basketReturn twoColTable ["A", "C"] = Except.error (PyErr.valueError msg)) := by
  have h := (basketReturn_spec twoColTable ["A", "B"]).2 (by decide)
  refine ⟨by decide, by rw [h]; decide, ?_⟩
  exact (basketReturn_spec twoColTable ["A", "C"]).1.mpr ⟨"C", by decide, by decide⟩

/-- C4 counterexample.  On a table with zero rows (columns present), the
rolling-correlation series is empty and `pair_corr_latest` raises
`IndexError` from `iloc[-1]` instead of returning an undefined value — the
claim's no-exception clause fails on the code. -/
theorem pairCorrLatest_empty_raises :
    pairCorrLatest zeroRowTable "A" "B" 240 = Except.error PyErr.indexError := by
  decide

/-- C4 amended.  With both columns present, `pair_corr_latest` returns the
most recent cell of the rolling-correlation series when that series is
non-empty, and raises `IndexError` when it is empty (e.g. a zero-row
table). -/
theorem pairCorrLatest_amended (logret : Table) (a b : String) (w : Nat)
    (ha : hasCol logret a = true) (hb : hasCol logret b = true) :
    (∀ v, (rollingCorr (colOf logret a) (colOf logret b) w).getLast? = some v →
        pairCorrLatest logret a b w = Except.ok v)
    ∧ ((rollingCorr (colOf logret a) (colOf logret b) w).getLast? = none →
        pairCorrLatest logret a b w = Except.error PyErr.indexError) := by
  have hmiss : (([a, b]).filter (fun c => !(hasCol logret c))) = [] := by
    simp [ha, hb]
  have hok : rollingCorrDf logret a b w =
      Except.ok (rollingCorr (colOf logret a) (colOf logret b) w) := by
    unfold rollingCorrDf
    rw [hmiss]
    rfl
  constructor
  · intro v hv
    unfold pairCorrLatest
    rw [hok]
    show (match (rollingCorr (colOf logret a) (colOf logret b) w).getLast? with
        | none => Except.error PyErr.indexError
        | some v => Except.ok v) = Except.ok v
    rw [hv]
  · intro hv
    unfold pairCorrLatest
    rw [hok]
    show (match (rollingCorr (colOf logret a) (colOf logret b) w).getLast? with
        | none => Except.error PyErr.indexError
        | some v => Except.ok v) = Except.error PyErr.indexError
    rw [hv]

/-- Witness for C4's amended statement: a one-row table has a non-empty
(all-NaN) correlation series, whose last cell is returned. -/
theorem pairCorrLatest_amended_witness :
    pairCorrLatest oneRowTable "A" "B" 2 = Except.ok none :=
  (pairCorrLatest_amended oneRowTable "A" "B" 2 (by decide) (by decide)).1 none (by decide)

/-- The last element of a `zipWith` of equal-length lists combines the last
elements. -/
theorem getLast?_zipWith {α β γ : Type} (f : α → β → γ) :
    ∀ (xs : List α) (ys : List β), xs.length = ys.length →
      (List.zipWith f xs ys).getLast? =
        (match xs.getLast?, ys.getLast? with
        | some x, some y => some (f x y)
        | _, _ => none)
  | [], [], _ => rfl
  | [], _ :: _, h => by simp at h
  | _ :: _, [], h => by simp at h
  | x :: xs, y :: ys, h => by
    cases xs with
    | nil =>
      cases ys with
      | nil => rfl
      | cons z zs => simp at h
    | cons x2 xs2 =>
      cases ys with
      | nil => simp at h
      | cons y2 ys2 =>
        have h2 : (x2 :: xs2).length = (y2 :: ys2).length := by simpa using h
        have ih := getLast?_zipWith f (x2 :: xs2) (y2 :: ys2) h2
        show (f x y :: List.zipWith f (x2 :: xs2) (y2 :: ys2)).getLast? = _
        rw [show List.zipWith f (x2 :: xs2) (y2 :: ys2) =
            f x2 y2 :: List.zipWith f xs2 ys2 from rfl, List.getLast?_cons_cons,
          show f x2 y2 :: List.zipWith f xs2 ys2 =
            List.zipWith f (x2 :: xs2) (y2 :: ys2) from rfl, ih,
          List.getLast?_cons_cons, List.getLast?_cons_cons]

unseal Rat.add Rat.sub Rat.mul Rat.inv in
/-- C10 counterexample.  On a one-bar spread `-5` with the latest upper band
NaN and the latest lower band `-1` (`mid = -1`, zero deviation), the
elementwise breach series `(spread > upper) | (spread < lower)` ends in
`True` (the NaN upper comparison is `False`, but the lower band is strictly
crossed), while `latest_boll_breach` returns `False` through its
`pd.isna(latest_upper)` guard — so the two do not report the same boolean,
and the claim's either-band-undefined clause fails for the elementwise
series. -/
theorem latestBreach_guard_counterexample :
    (detectBollingerBreach [some (-5)] [none] [some ⟨-1, 0, 0⟩]).getLast? = some true
    ∧ latestBollBreach [some (-5)] [none] [some ⟨-1, 0, 0⟩] = false := by
  constructor
  · decide
  · decide

/-- C10 amended.  For a non-empty spread with band series over the same
index: when the latest spread and both latest bands are all defined,
`latest_boll_breach` returns the same boolean as the last element of the
elementwise breach series the scanner computes; when the latest spread or
either latest band is undefined, `latest_boll_breach` returns `False` (the
elementwise series need not — see the counterexample). -/
theorem latestBreach_refines_amended (sp : List Cell) (u low : List (Option BandVal))
    (hne : sp ≠ []) (hu : u.length = sp.length) (hl : low.length = sp.length) :
    (∀ (sc : ℚ) (uc lc : BandVal), sp.getLast? = some (some sc) →
        u.getLast? = some (some uc) → low.getLast? = some (some lc) →
        (detectBollingerBreach sp u low).getLast? = some (latestBollBreach sp u low))
    ∧ ((sp.getLast? = some none ∨ u.getLast? = some none ∨ low.getLast? = some none) →
        latestBollBreach sp u low = false) := by
  have hune : u ≠ [] := by
    intro hn
    rw [hn] at hu
    exact hne (List.length_eq_zero.mp (by simpa using hu.symm))
  have hlne : low ≠ [] := by
    intro hn
    rw [hn] at hl
    exact hne (List.length_eq_zero.mp (by simpa using hl.symm))
  have hguard : (sp.isEmpty || u.isEmpty || low.isEmpty) = false := by
    cases sp with
    | nil => exact absurd rfl hne
    | cons a as =>
      cases u with
      | nil => exact absurd rfl hune
      | cons b bs =>
        cases low with
        | nil => exact absurd rfl hlne
        | cons c cs => rfl
  constructor
  · intro sc uc lc hsc huc hlc
    have hziplast : (u.zip low).getLast? = some (some uc, some lc) := by
      rw [show u.zip low = List.zipWith Prod.mk u low from rfl,
        getLast?_zipWith Prod.mk u low (hu.trans hl.symm), huc, hlc]
    have hlatest : latestBollBreach sp u low =
        (gtSqrt (sc - uc.mid) uc.dev uc.varq || ltSqrt (sc - lc.mid) lc.dev lc.varq) := by
      unfold latestBollBreach
      rw [if_neg (by rw [hguard]; exact fun hc => nomatch hc), hsc, huc, hlc]
    rw [hlatest]
    unfold detectBollingerBreach
    rw [getLast?_zipWith _ sp (u.zip low) (by simp [hu, hl]), hsc, hziplast]
    rfl
  · intro hnone
    unfold latestBollBreach
    rw [if_neg (by rw [hguard]; exact fun hc => nomatch hc)]
    split
    · rename_i sc2 uc2 lc2 hsp2 hu2 hl2
      exfalso
      rcases hnone with hn | hn | hn
      · rw [hn] at hsp2
        injection hsp2 with h3
        exact nomatch h3
      · rw [hn] at hu2
        injection hu2 with h3
        exact nomatch h3
      · rw [hn] at hl2
        injection hl2 with h3
        exact nomatch h3
    · rfl

unseal Rat.add Rat.sub Rat.mul Rat.inv in
/-- Witness for C10's amended statement: a one-bar spread with all three
latest values defined, where both sides agree (no breach), and a NaN-band
input where `latest_boll_breach` reports `False`. -/
theorem latestBreach_refines_amended_witness :
    (detectBollingerBreach [some 1] [some ⟨0, 1, 1⟩] [some ⟨0, -1, 1⟩]).getLast? =
      some (latestBollBreach [some 1] [some ⟨0, 1, 1⟩] [some ⟨0, -1, 1⟩])
    ∧ latestBollBreach [some 1] [some ⟨0, 1, 1⟩] [some ⟨0, -1, 1⟩] = false
    ∧ latestBollBreach [some (-5)] [none] [some ⟨-1, 0, 0⟩] = false :=
  ⟨(latestBreach_refines_amended [some 1] [some ⟨0, 1, 1⟩] [some ⟨0, -1, 1⟩]
      (by decide) (by decide) (by decide)).1 1 ⟨0, 1, 1⟩ ⟨0, -1, 1⟩ rfl rfl rfl,
    by decide,
    (latestBreach_refines_amended [some (-5)] [none] [some ⟨-1, 0, 0⟩]
      (by decide) (by decide) (by decide)).2 (Or.inr (Or.inl rfl))⟩

/-- A pairwise implication whose hypothesis fails everywhere holds
vacuously. -/
theorem pairwise_vacuous {α : Type} {P : α → Prop} {Q : α → α → Prop} :
    ∀ (l : List α), (∀ q ∈ l, ¬ P q) → l.Pairwise (fun r q => P q → Q r q)
  | [], _ => List.Pairwise.nil
  | x :: t, h => by
    refine List.Pairwise.cons ?_
      (pairwise_vacuous t (fun q hq => h q (List.mem_cons_of_mem x hq)))
    intro q hq hPq
    exact absurd hPq (h q (List.mem_cons_of_mem x hq))

/-- C6.  The default sort of the pair table is by absolute z-score
descending: the output is a permutation of the input rows, and in output
order any row preceding a row with a defined `|z|` key also has a defined
key, at least as large (the key `zKeyD` is the squared `|z|`,
order-isomorphic to `|z|`).  Rows with NaN z-scores all come after the rows
with defined z-scores. -/
theorem defaultSort_spec (rows : List ExpRow) :
    (sortAbsZDesc rows).Perm rows
    ∧ (sortAbsZDesc rows).Pairwise (fun r q =>
        (zKey q.z).isSome = true → (zKey r.z).isSome = true ∧ zKeyD q ≤ zKeyD r) := by
  constructor
  · unfold sortAbsZDesc
    have h1 : ((rows.filter (fun r => (zKey r.z).isSome)).insertionSort zGe).Perm
        (rows.filter (fun r => (zKey r.z).isSome)) := List.perm_insertionSort _ _
    exact (h1.append (List.Perm.refl _)).trans (List.filter_append_perm _ rows)
  · unfold sortAbsZDesc
    rw [List.pairwise_append]
    refine ⟨?_, ?_, ?_⟩
    · have hs : ((rows.filter (fun r => (zKey r.z).isSome)).insertionSort zGe).Pairwise zGe :=
        List.sorted_insertionSort zGe _
      refine hs.imp_of_mem ?_
      intro a b hma _hmb hab _hq
      have hma2 : a ∈ rows.filter (fun r => (zKey r.z).isSome) :=
        (List.perm_insertionSort zGe _).subset hma
      exact ⟨(List.mem_filter.mp hma2).2, hab⟩
    · refine pairwise_vacuous _ ?_
      intro q hq hPq
      have h2 := (List.mem_filter.mp hq).2
      rw [hPq] at h2
      exact nomatch h2
    · intro a _hma b hmb hPb
      have h2 := (List.mem_filter.mp hmb).2
      rw [hPb] at h2
      exact nomatch h2

/-- Three pair rows: finite z-scores `1` and `3` (in squared representation)
and one NaN z-score, listed out of order. -/
def demoRows : List ExpRow :=
  [⟨"A", "B", ZS.val 1 1, false, none, none, none, false⟩,
   ⟨"E", "F", ZS.nan, false, none, none, none, false⟩,
   ⟨"C", "D", ZS.val 3 1, false, none, none, none, false⟩]

unseal Rat.add Rat.sub Rat.mul Rat.inv in
/-- Witness for C6: the demo rows sort to `|z| = 3, |z| = 1, NaN`. -/
theorem defaultSort_spec_witness :
    sortAbsZDesc demoRows =
      [⟨"C", "D", ZS.val 3 1, false, none, none, none, false⟩,
       ⟨"A", "B", ZS.val 1 1, false, none, none, none, false⟩,
       ⟨"E", "F", ZS.nan, false, none, none, none, false⟩]
    ∧ (sortAbsZDesc demoRows).Perm demoRows :=
  ⟨by decide, (defaultSort_spec demoRows).1⟩

/-- `sortBasketRows` permutes its input. -/
theorem sortBasketRows_perm (rows : List BasketRow) : (sortBasketRows rows).Perm rows := by
  unfold sortBasketRows
  exact ((List.perm_insertionSort bkGe _).append (List.perm_insertionSort oppGe _)).trans
    (List.filter_append_perm _ rows)

/-- `scan_baskets` returns one row per configured basket, permuted by the
final sort. -/
theorem scanBaskets_perm (p : Table) (baskets : List (String × List String))
    (s : Settings) (lb : Nat) :
    (scanBaskets p baskets s lb).Perm
      (baskets.map (fun bk => scanBasketRow p (logReturns p) s lb bk.1 bk.2)) := by
  unfold scanBaskets
  exact sortBasketRows_perm _

/-- The ordering contract of the basket-summary sort, on an arbitrary row
list. -/
theorem sortBasketRows_pairwise (rows : List BasketRow) :
    (sortBasketRows rows).Pairwise (fun r q =>
        ((q.basketVol).isSome = true → (r.basketVol).isSome = true)
        ∧ (∀ vr vq : ℚ, r.basketVol = some vr → q.basketVol = some vq →
            vq ≤ vr ∧ (vr = vq → q.oppCount ≤ r.oppCount))) := by
  unfold sortBasketRows
  rw [List.pairwise_append]
  refine ⟨?_, ?_, ?_⟩
  · have hs := List.sorted_insertionSort bkGe (rows.filter (fun r => (r.basketVol).isSome))
    refine hs.imp_of_mem ?_
    intro a b hma _hmb hab
    have hma2 := (List.mem_filter.mp ((List.perm_insertionSort bkGe _).subset hma)).2
    constructor
    · intro _
      exact hma2
    · intro vr vq hvr hvq
      have hga : (a.basketVol).getD 0 = vr := by rw [hvr]; rfl
      have hgb : (b.basketVol).getD 0 = vq := by rw [hvq]; rfl
      rcases hab with hlt | ⟨heq, hopp⟩
      · rw [hga, hgb] at hlt
        exact ⟨le_of_lt hlt, fun heq2 => absurd hlt (by rw [heq2]; exact lt_irrefl vq)⟩
      · rw [hga, hgb] at heq
        exact ⟨le_of_eq heq.symm, fun _ => hopp⟩
  · have hs := List.sorted_insertionSort oppGe (rows.filter (fun r => !(r.basketVol).isSome))
    refine hs.imp_of_mem ?_
    intro a b hma hmb _hab
    have hma2 := (List.mem_filter.mp ((List.perm_insertionSort oppGe _).subset hma)).2
    have hmb2 := (List.mem_filter.mp ((List.perm_insertionSort oppGe _).subset hmb)).2
    constructor
    · intro hq
      rw [hq] at hmb2
      exact nomatch hmb2
    · intro vr vq hvr _hvq
      rw [hvr] at hma2
      exact nomatch hma2
  · intro a _hma b hmb
    have hmb2 := (List.mem_filter.mp ((List.perm_insertionSort oppGe _).subset hmb)).2
    constructor
    · intro hq
      rw [hq] at hmb2
      exact nomatch hmb2
    · intro vr vq _hvr hvq
      rw [hvq] at hmb2
      exact nomatch hmb2

/-- C9.  The basket summary table is a permutation of the per-basket rows,
sorted by volatility descending with ties broken by opportunity count
descending, and every NaN-volatility row placed after all defined-volatility
rows regardless of its opportunity count.  (`basketVol` carries the variance;
`√` is strictly monotone, so this order is the order of the pandas std
values.) -/
theorem basketSort_spec (p : Table) (baskets : List (String × List String))
    (s : Settings) (lb : Nat) :
    (scanBaskets p baskets s lb).Perm
      (baskets.map (fun bk => scanBasketRow p (logReturns p) s lb bk.1 bk.2))
    ∧ (scanBaskets p baskets s lb).Pairwise (fun r q =>
        ((q.basketVol).isSome = true → (r.basketVol).isSome = true)
        ∧ (∀ vr vq : ℚ, r.basketVol = some vr → q.basketVol = some vq →
            vq ≤ vr ∧ (vr = vq → q.oppCount ≤ r.oppCount))) := by
  refine ⟨scanBaskets_perm p baskets s lb, ?_⟩
  unfold scanBaskets
  exact sortBasketRows_pairwise _

/-- Two demo baskets over a three-bar table: `b1` has two valid tickers, `b2`
resolves to none. -/
def demoBaskets : List (String × List String) :=
  [("b1", ["ETHUSD", "BTCUSD"]), ("b2", ["XRPUSD"])]

/-- Three bars of log-prices for the two normalized demo symbols. -/
def demoPrices : Table :=
  [("ETH/USDT:USDT", [some 0, some 1, some 0]), ("BTC/USDT:USDT", [some 0, some 0, some 0])]

/-- Small windows so three bars of data are enough. -/
def demoScanSettings : Settings := ⟨2, 2, 2, 2⟩

unseal Rat.add Rat.sub Rat.mul Rat.inv in
/-- Witness for C9: the defined-volatility basket row sorts before the
NaN-volatility edge row. -/
theorem basketSort_spec_witness :
    scanBaskets demoPrices demoBaskets demoScanSettings 24 =
      [⟨"b1", 2, some (1 / 2), 0, "ETH/USDT:USDT, BTC/USDT:USDT"⟩,
       ⟨"b2", 0, none, 0, ""⟩]
    ∧ (scanBaskets demoPrices demoBaskets demoScanSettings 24).Pairwise (fun r q =>
        ((q.basketVol).isSome = true → (r.basketVol).isSome = true)
        ∧ (∀ vr vq : ℚ, r.basketVol = some vr → q.basketVol = some vq →
            vq ≤ vr ∧ (vr = vq → q.oppCount ≤ r.oppCount))) :=
  ⟨by decide, (basketSort_spec demoPrices demoBaskets demoScanSettings 24).2⟩

/-- Every `scan_baskets` row carries its basket's name. -/
theorem scanBasketRow_basket (p lr : Table) (s : Settings) (lb : Nat)
    (name : String) (raws : List String) :
    (scanBasketRow p lr s lb name raws).basket = name := by
  unfold scanBasketRow
  split <;> rfl

/-- The `n_tickers < 2` branch of `scan_baskets` emits exactly the edge
row. -/
theorem scanBasketRow_edge (p lr : Table) (s : Settings) (lb : Nat)
    (name : String) (raws : List String) (hlt : (validTickers p raws).length < 2) :
    scanBasketRow p lr s lb name raws =
      ⟨name, (validTickers p raws).length, none, 0, ""⟩ := by
  unfold scanBasketRow
  rw [if_pos hlt]

/-- In an association list with `Nodup` keys, entries are determined by their
key. -/
theorem keyUnique {l : List (String × List String)} (h : (l.map Prod.fst).Nodup)
    {x y : String × List String} (hx : x ∈ l) (hy : y ∈ l) (he : x.1 = y.1) : x = y := by
  induction l with
  | nil => exact absurd hx (List.not_mem_nil x)
  | cons a t ih =>
    rw [List.map_cons] at h
    have hnd := List.nodup_cons.mp h
    rcases List.mem_cons.mp hx with hxa | hxt
    · rcases List.mem_cons.mp hy with hya | hyt
      · rw [hxa, hya]
      · exfalso
        apply hnd.1
        rw [hxa] at he
        rw [he]
        exact List.mem_map.mpr ⟨y, hyt, rfl⟩
    · rcases List.mem_cons.mp hy with hya | hyt
      · exfalso
        apply hnd.1
        rw [hya] at he
        rw [← he]
        exact List.mem_map.mpr ⟨x, hxt, rfl⟩
      · exact ih hnd.2 hxt hyt

/-- Counting the image of a list member whose image is not shared. -/
theorem count_map_eq_one {α β : Type} [DecidableEq α] [DecidableEq β] (f : α → β) :
    ∀ (l : List α) (x : α), x ∈ l → l.Nodup → (∀ y ∈ l, f y = f x → y = x) →
      (l.map f).count (f x) = 1
  | [], x, hx, _, _ => absurd hx (List.not_mem_nil x)
  | a :: t, x, hx, hnd, huniq => by
    have hnd2 := List.nodup_cons.mp hnd
    rcases List.mem_cons.mp hx with hxa | hxt
    · subst hxa
      rw [List.map_cons, List.count_cons]
      have htail : (t.map f).count (f x) = 0 := by
        rw [List.count_eq_zero]
        intro hmem
        rcases List.mem_map.mp hmem with ⟨y, hyt, hyf⟩
        have hyx : y = x := huniq y (List.mem_cons_of_mem x hyt) hyf
        rw [hyx] at hyt
        exact hnd2.1 hyt
      rw [htail]
      simp
    · have hfa : ¬ f x = f a := by
        intro hfe
        have hax : a = x := huniq a (List.mem_cons_self a t) hfe.symm
        rw [← hax] at hxt
        exact hnd2.1 hxt
      rw [List.map_cons, List.count_cons]
      have ih := count_map_eq_one f t x hxt hnd2.2
        (fun y hy hf => huniq y (List.mem_cons_of_mem a hy) hf)
      rw [ih]
      have hfa2 : ¬ f a = f x := fun hh => hfa hh.symm
      simp [hfa2]

/-- C8.  For every configured basket resolving to fewer than 2 valid tickers,
`scan_baskets` emits exactly one row for that basket — with the basket's
`n_tickers` count, NaN volatility, zero opportunity count and empty
top-movers — and no other computation contributes to it; the function is
total, so this case cannot raise. -/
theorem basketEdge_spec (p : Table) (baskets : List (String × List String))
    (s : Settings) (lb : Nat) (hnd : (baskets.map Prod.fst).Nodup)
    (name : String) (raws : List String) (hmem : (name, raws) ∈ baskets)
    (hlt : (validTickers p raws).length < 2) :
    (scanBaskets p baskets s lb).count
        ⟨name, (validTickers p raws).length, none, 0, ""⟩ = 1
    ∧ (∀ r ∈ scanBaskets p baskets s lb, r.basket = name →
        r = ⟨name, (validTickers p raws).length, none, 0, ""⟩) := by
  have hperm := scanBaskets_perm p baskets s lb
  have hedge : scanBasketRow p (logReturns p) s lb name raws =
      ⟨name, (validTickers p raws).length, none, 0, ""⟩ :=
    scanBasketRow_edge p (logReturns p) s lb name raws hlt
  have huniq : ∀ y ∈ baskets,
      scanBasketRow p (logReturns p) s lb y.1 y.2 =
        scanBasketRow p (logReturns p) s lb (name, raws).1 (name, raws).2 →
      y = (name, raws) := by
    intro y hy hfe
    have h1 : y.1 = name := by
      have hb := scanBasketRow_basket p (logReturns p) s lb y.1 y.2
      rw [hfe] at hb
      rw [← hb]
      exact scanBasketRow_basket p (logReturns p) s lb (name, raws).1 (name, raws).2
    exact keyUnique hnd hy hmem h1
  constructor
  · rw [hperm.count_eq]
    have hco := count_map_eq_one
      (fun bk => scanBasketRow p (logReturns p) s lb bk.1 bk.2)
      baskets (name, raws) hmem (hnd.of_map Prod.fst) huniq
    rw [← hedge]
    exact hco
  · intro r hr hrname
    have hrmem := hperm.subset hr
    rcases List.mem_map.mp hrmem with ⟨bk, hbk, hbkr⟩
    have hb1 : bk.1 = name := by
      have hb := scanBasketRow_basket p (logReturns p) s lb bk.1 bk.2
      rw [hbkr] at hb
      rw [← hrname, hb]
    have hbke : bk = (name, raws) := keyUnique hnd hbk hmem (by rw [hb1])
    rw [← hbkr, hbke]
    exact hedge

/-- A single configured basket whose only symbol has no price column. -/
def edgeBaskets : List (String × List String) := [("solo", ["BTCUSD"])]

/-- Witness for C8: on an empty table the lone basket resolves to zero valid
tickers and the scan output is exactly its edge row. -/
theorem basketEdge_spec_witness :
    validTickers ([] : Table) ["BTCUSD"] = []
    ∧ scanBaskets ([] : Table) edgeBaskets defaultSettings 24 = [⟨"solo", 0, none, 0, ""⟩]
    ∧ (scanBaskets ([] : Table) edgeBaskets defaultSettings 24).count
        ⟨"solo", (validTickers ([] : Table) ["BTCUSD"]).length, none, 0, ""⟩ = 1 :=
  ⟨by decide, by decide,
    (basketEdge_spec ([] : Table) edgeBaskets defaultSettings 24 (by decide)
      "solo" ["BTCUSD"] (by decide) (by decide)).1⟩

/-- C1 (code bug).  `scan_pairs_in_basket` does not always return a table: at
the one-row two-ticker input (with the default parameters) one pair row is
computed, so the final `sort_values` call — written with the invalid keyword
argument `na_last` — raises `TypeError`.  A run that does not raise is one
that computed zero rows and returns the empty table, as the second clause
shows at the empty basket. -/
theorem scanPairs_raises :
    scanPairsInBasket oneRowTable ["A", "B"] defaultSettings =
      Except.error (PyErr.typeError "sort_values() got an unexpected keyword argument na_last")
    ∧ scanPairsInBasket oneRowTable [] defaultSettings = Except.ok [] := by
  constructor
  · decide
  · decide

end StatArbDash
